import Mathlib

/-! Verification development for the face-embedding match engine of the
"Dev" face similarity platform.

The repository ships the Next.js frontend (`frontend/pages/scan.tsx`,
`frontend/pages/gallery.tsx`, components) together with the README and the
Docker configuration; the Python backend engine (vector store, similarity
index, ranker, ingestion/query pipelines, persistence) is declared by the
README's project layout (`app/services`, `app/core`) but its sources are not
part of the tree.  The engine is therefore modelled here from the
specification, while the frontend handlers are embedded from their
TypeScript sources.

Numeric convention: embedding components and similarities are modelled as
exact rationals (`ℚ`).  The L2 norm of a vector is generally irrational, so
the Normalizer is modelled relative to an explicitly supplied value `n`
together with the hypothesis `IsL2Norm n v` stating that `n` is the true
norm; all degeneracy tests are expressed on the (rational) squared norm,
exactly as the comparisons `norm < eps` translate. -/

namespace FaceEngine

/-- Modelled from the spec (§3): an embedding is a fixed-length sequence of
floating-point components, represented as a list of rationals. -/
abbrev Embedding := List ℚ

/-- Modelled from the spec (§4.1): the degeneracy cutoff for the L2 norm,
`epsilon = 1e-6`. -/
def epsNorm : ℚ := 1 / 1000000

/-- Squared L2 norm of an embedding (sum of squared components). -/
def l2normSq (v : Embedding) : ℚ := (v.map fun x => x * x).sum

/-- `IsL2Norm n v` states that `n` is the (nonnegative) L2 norm of `v`. -/
def IsL2Norm (n : ℚ) (v : Embedding) : Prop := 0 ≤ n ∧ n ^ 2 = l2normSq v

/-- Modelled from the spec (§4.1): result of the Normalizer, either the
normalized embedding or the `DegenerateVector` failure. -/
inductive NormalizeResult where
  | ok (w : Embedding)
  | degenerateVector
deriving DecidableEq

/-- Modelled from the spec (§4.1): `normalize` computes the L2 norm (passed
here as the argument `n`, see `IsL2Norm`); if the norm is below `epsNorm` it
fails with `DegenerateVector`, otherwise it divides every component by the
norm. -/
def normalize (n : ℚ) (v : Embedding) : NormalizeResult :=
  if n < epsNorm then .degenerateVector else .ok (v.map fun x => x / n)

/-- Boolean degeneracy test used by the ingestion pipeline: the norm is
below `epsNorm` iff the squared norm is below `epsNorm ^ 2`. -/
def degenerate (v : Embedding) : Bool := l2normSq v < epsNorm ^ 2

/-- Modelled from the spec (§3): a record of the Vector Store. -/
structure VectorRecord where
  vector_id : Nat
  owner_user_id : String
  image_id : String
  vector : Embedding
  tombstoned : Bool
  created_at : Nat
deriving DecidableEq

/-- Modelled from the spec (§4.2): the Vector Store, an append-mostly list
of records together with the next (monotonically increasing, never reused)
`vector_id`. -/
structure Store where
  records : List VectorRecord
  next_id : Nat
deriving DecidableEq

/-- The empty Store. -/
def Store.empty : Store := ⟨[], 0⟩

/-- Modelled from the spec (§4.2): `insert` appends a live record under a
fresh `vector_id` and returns the assigned id. -/
def Store.insert (s : Store) (owner image : String) (v : Embedding)
    (now : Nat) : Store × Nat :=
  (⟨s.records ++ [⟨s.next_id, owner, image, v, false, now⟩], s.next_id + 1⟩,
    s.next_id)

/-- Modelled from the spec (§4.2): `tombstone` marks every live record of
the image as tombstoned (records are retained physically) and returns the
number of records newly tombstoned; idempotent. -/
def Store.tombstone (s : Store) (image : String) : Store × Nat :=
  (⟨s.records.map fun r =>
      if r.image_id = image then { r with tombstoned := true } else r,
    s.next_id⟩,
   s.records.countP fun r => r.image_id == image && !r.tombstoned)

/-- Modelled from the spec (§4.3/§6): query scope, one user or all users. -/
inductive Scope where
  | global
  | user (uid : String)
deriving DecidableEq

/-- Scope filter on records. -/
def inScope (sc : Scope) (r : VectorRecord) : Bool :=
  match sc with
  | .global => true
  | .user uid => r.owner_user_id == uid

/-- Inner product of two embeddings; for unit vectors this is the cosine
similarity of the spec (§4.3). -/
def dot (v w : Embedding) : ℚ := (List.zipWith (· * ·) v w).sum

/-- Modelled from the spec (§4.3): a raw search candidate, the stored
record's identifiers together with its similarity to the query. -/
structure Candidate where
  vector_id : Nat
  owner_user_id : String
  image_id : String
  similarity : ℚ
deriving DecidableEq

/-- Candidate ordering used for ranking: descending similarity, ties broken
by ascending `image_id` (spec §4.4); remaining ties are resolved by the
store-unique `vector_id` and then by owner, making the order total so that
the output is deterministic for identical input sets. -/
def candLE (a b : Candidate) : Prop :=
  b.similarity < a.similarity ∨
    (a.similarity = b.similarity ∧
      (a.image_id < b.image_id ∨
        (a.image_id = b.image_id ∧
          (a.vector_id < b.vector_id ∨
            (a.vector_id = b.vector_id ∧
              a.owner_user_id ≤ b.owner_user_id)))))

instance candLE.dec : DecidableRel candLE := fun a b => by
  unfold candLE; infer_instance

/-- Lexicographic key realizing `candLE` inside a linear order. -/
def candKey (c : Candidate) : ℚ ×ₗ (String ×ₗ (Nat ×ₗ String)) :=
  toLex (-c.similarity, toLex (c.image_id, toLex (c.vector_id, c.owner_user_id)))

/-- Modelled from the spec (§3): a match result, produced fresh per query. -/
structure MatchResult where
  image_id : String
  owner_user_id : String
  similarity : ℚ
  rank : Nat
deriving DecidableEq

/-- Ordering the ranker guarantees on its output (spec §4.4): descending
similarity, ties broken by ascending `image_id`. -/
def mrLE (a b : MatchResult) : Prop :=
  b.similarity < a.similarity ∨
    (a.similarity = b.similarity ∧ a.image_id ≤ b.image_id)

/-- Rank assignment: candidates in (already sorted) order are turned into
`MatchResult`s carrying consecutive ranks starting at `i`. -/
def assignRanksFrom (i : Nat) : List Candidate → List MatchResult
  | [] => []
  | c :: rest =>
    ⟨c.image_id, c.owner_user_id, c.similarity, i⟩ :: assignRanksFrom (i + 1) rest

/-- Modelled from the spec (§4.4): the Match Ranker.  Drops candidates with
similarity strictly below `threshold`, sorts the rest descending by
similarity with ties broken by ascending `image_id` (see `candLE`), then
assigns ranks `1..N`. -/
def rank (candidates : List Candidate) (threshold : ℚ) : List MatchResult :=
  assignRanksFrom 1
    (List.insertionSort candLE
      (candidates.filter fun c => threshold ≤ c.similarity))

/-- Modelled from the spec (§4.3): untruncated search — the live records in
scope, scored against the query and sorted descending by similarity.  The
scope filter is applied here, before any truncation to `k`. -/
def Store.searchAll (s : Store) (q : Embedding) (sc : Scope) : List Candidate :=
  List.insertionSort candLE
    ((s.records.filter fun r => !r.tombstoned && inScope sc r).map fun r =>
      ⟨r.vector_id, r.owner_user_id, r.image_id, dot q r.vector⟩)

/-- Modelled from the spec (§4.3): `search` returns at most `k` candidates,
the scope filter having been applied before truncation. -/
def Store.search (s : Store) (q : Embedding) (k : Nat) (sc : Scope) :
    List Candidate :=
  (s.searchAll q sc).take k

/-- Modelled from the spec (§6): engine configuration. -/
structure Config where
  similarity_threshold : ℚ
  top_k : Nat
  ambiguity_epsilon : ℚ
deriving DecidableEq

/-- Modelled from the spec (§6): outcome of the Query pipeline.  The
terminal `failed` state of §4.6 is reached only on external embedder
failures, which happen before embeddings are handed to the engine. -/
inductive QueryOutcome where
  | matched (results : List MatchResult)
  | noMatch
  | noFace
  | ambiguous (candidate_user_ids : List String)
  | failed (reason : String)
deriving DecidableEq

/-- The distinct owners of ranked results whose similarity is within
`ambiguity_epsilon` of the top similarity. -/
def nearTopOwners (cfg : Config) (top : MatchResult) (results : List MatchResult) :
    List String :=
  ((results.filter fun r =>
      top.similarity - r.similarity ≤ cfg.ambiguity_epsilon).map
    MatchResult.owner_user_id).dedup

/-- Modelled from the spec (§4.6, identity discovery): outcome of a global
query from the ranked results.  If at least two distinct users sit within
`ambiguity_epsilon` of the top similarity, the pipeline signals the
ambiguity, listing the candidate user ids, instead of tie-breaking. -/
def globalOutcome (cfg : Config) : List MatchResult → QueryOutcome
  | [] => .noMatch
  | top :: rest =>
    if 2 ≤ (nearTopOwners cfg top (top :: rest)).length then
      .ambiguous (nearTopOwners cfg top (top :: rest))
    else .matched (top :: rest)

/-- Modelled from the spec (§4.6, scoped retrieval): a scoped query returns
the ranked results, an empty list being the `no-match` outcome. -/
def scopedOutcome : List MatchResult → QueryOutcome
  | [] => .noMatch
  | r :: rs => .matched (r :: rs)

/-- Modelled from the spec (§4.6): the Query pipeline.  Zero embeddings is
the distinct normal outcome `no-face`, not a failure.  Otherwise the scanned
face is searched in scope and ranked.  The external normalization of the
query embedding happens upstream (see `normalize`); the pipeline consumes
the embedding vectors it is handed. -/
def queryPipeline (s : Store) (embs : List Embedding) (sc : Scope)
    (cfg : Config) : QueryOutcome :=
  match embs with
  | [] => .noFace
  | q :: _ =>
    let results := rank (s.search q cfg.top_k sc) cfg.similarity_threshold
    match sc with
    | .user _ => scopedOutcome results
    | .global => globalOutcome cfg results

/-- Modelled from the spec (§6): outcome of the Ingestion pipeline. -/
inductive IngestOutcome where
  | ok (inserted_vector_ids : List Nat) (skipped_degenerate_count : Nat)
      (store : Store)
  | noFace
  | failed (reason : String)
deriving DecidableEq

/-- Modelled from the spec (§4.5): index every detected face individually
against the same `image_id`; a face whose embedding is degenerate is skipped
and counted, the others are inserted.  Returns the final store, the
assigned vector ids and the degenerate count.  (The unit-scaling of the
stored vector is the Normalizer's, verified separately; the collection
bookkeeping modelled here is unaffected by the scaling.) -/
def ingestFaces (s : Store) (owner image : String) (now : Nat) :
    List Embedding → Store × List Nat × Nat
  | [] => (s, [], 0)
  | v :: rest =>
    if degenerate v then
      let (s', ids, skipped) := ingestFaces s owner image now rest
      (s', ids, skipped + 1)
    else
      let (s₁, id) := s.insert owner image v now
      let (s', ids, skipped) := ingestFaces s₁ owner image now rest
      (s', id :: ids, skipped)

/-- Modelled from the spec (§4.5, §7): the Ingestion pipeline.  Zero
embeddings (no face detected) is the distinct normal outcome `no-face`, not
a failure; a degenerate face is skipped without failing the image unless it
was the only face. -/
def ingestPipeline (s : Store) (owner image : String) (embs : List Embedding)
    (now : Nat) : IngestOutcome :=
  match embs with
  | [] => .noFace
  | _ :: _ =>
    let (s', ids, skipped) := ingestFaces s owner image now embs
    if ids.isEmpty then .failed "DegenerateVector" else .ok ids skipped s'

/-- Modelled from the spec (§6): a durable snapshot, a versioned ordered log
of `VectorRecord`s (including the tombstone flag) sufficient to rebuild the
store and index by replay. -/
structure Snapshot where
  version : Nat
  entries : List VectorRecord
deriving DecidableEq

/-- Snapshot format version written by this engine. -/
def snapshotVersion : Nat := 1

/-- Modelled from the spec (§6): `Persist` produces a snapshot of the full
record log. -/
def Store.persist (s : Store) : Snapshot := ⟨snapshotVersion, s.records⟩

/-- Modelled from the spec (§6, §7): `Restore` validates the snapshot
version (an unknown version is the fatal `IndexCorruption`, `none` here) and
rebuilds the store; `vector_id` assignment resumes past every persisted id
so ids are never reused. -/
def Store.restore (snap : Snapshot) : Option Store :=
  if snap.version = snapshotVersion then
    some ⟨snap.entries, (snap.entries.map VectorRecord.vector_id).foldr max 0 + 1⟩
  else none

end FaceEngine

namespace Frontend

/-- From `frontend/pages/gallery.tsx`: an element of the gallery API
response's `images` array.  The page types it as `any` and reads `id`,
`filename` and `file_path`; the `similarity` field stands for any
similarity value the backend may have supplied alongside. -/
structure BackendImage where
  id : String
  filename : Option String
  file_path : Option String
  similarity : Option ℚ
deriving DecidableEq

/-- From `frontend/pages/gallery.tsx`: the `ImageResult` interface. -/
structure ImageResult where
  image_id : String
  similarity : ℚ
  rank : Nat
  filename : Option String
  file_path : Option String
deriving DecidableEq

/-- From `frontend/pages/gallery.tsx` (`fetchGallery`): the
`data.images.map((img, index) => ...)` transformation, with the running
`index`.  Every produced item gets `similarity: 1.0` and
`rank: index + 1`. -/
def transformGalleryFrom (index : Nat) : List BackendImage → List ImageResult
  | [] => []
  | img :: rest =>
    ⟨img.id, 1, index + 1, img.filename, img.file_path⟩ ::
      transformGalleryFrom (index + 1) rest

/-- From `frontend/pages/gallery.tsx` (`fetchGallery`): the transformation
applied to the returned page array (JavaScript `map` starts at index 0). -/
def transformGalleryImages (imgs : List BackendImage) : List ImageResult :=
  transformGalleryFrom 0 imgs

/-- From `frontend/pages/scan.tsx`: the `ScanStatus` union type. -/
inductive ScanStatus where
  | idle
  | scanning
  | success
  | noMatch
  | error
deriving DecidableEq

/-- From `frontend/pages/scan.tsx`: the `ScanResult` interface; `user_id`
and `access_token` are optional fields. -/
structure ScanResult where
  success : Bool
  message : String
  faces_detected : Nat
  user_id : Option String
  access_token : Option String
  match_count : Nat
deriving DecidableEq

/-- The two `localStorage` keys the scan page writes. -/
structure ScanLocalStorage where
  access_token : Option String
  user_id : Option String
deriving DecidableEq

/-- Local state visible to the scan page: the stored credentials, the
page's `status` / `result` / `error` React state, and the current route
(`router.push` navigation target). -/
structure ScanPageState where
  storage : ScanLocalStorage
  status : ScanStatus
  result : Option ScanResult
  error : Option String
  route : String
deriving DecidableEq

/-- JavaScript truthiness of an optional string: `undefined` and the empty
string are falsy. -/
def strTruthy : Option String → Bool
  | none => false
  | some s => s != ""

/-- From `frontend/pages/scan.tsx` (`handleCapture`): the handler's effect
on the page state once the scan request settles.  `resp` is the parsed
response (`.ok data`) or the thrown error message (`.error msg`, the catch
branch).  Mirrors the source: `setStatus('scanning'); setError(null)`
first; on data, `setResult(data)`; when `data.success && data.match_count >
0` the token (if truthy) and user id are written to `localStorage` and the
router navigates to `/gallery`; otherwise zero detected faces shows the
no-face error, and any other case sets the `no-match` status. -/
def handleCapture (st : ScanPageState) (resp : Except String ScanResult) :
    ScanPageState :=
  let st1 := { st with status := ScanStatus.scanning, error := none }
  match resp with
  | .error msg => { st1 with status := ScanStatus.error, error := some msg }
  | .ok data =>
    let st2 := { st1 with result := some data }
    if data.success && decide (0 < data.match_count) then
      let st3 :=
        if strTruthy data.access_token then
          { st2 with
            storage := ⟨data.access_token, some (data.user_id.getD "")⟩ }
        else st2
      { st3 with route := "/gallery" }
    else if data.faces_detected == 0 then
      { st2 with status := ScanStatus.error,
                 error := some "No face detected. Please try again." }
    else
      { st2 with status := ScanStatus.noMatch }

end Frontend

namespace FaceEngine

theorem candLE_iff_key {a b : Candidate} : candLE a b ↔ candKey a ≤ candKey b := by
  unfold candLE candKey
  rw [Prod.Lex.le_iff, Prod.Lex.le_iff, Prod.Lex.le_iff]
  simp only [neg_lt_neg_iff, neg_inj]

instance : IsTotal Candidate candLE :=
  ⟨fun a b => by
    rcases le_total (candKey a) (candKey b) with h | h
    · exact Or.inl (candLE_iff_key.mpr h)
    · exact Or.inr (candLE_iff_key.mpr h)⟩

instance : IsTrans Candidate candLE :=
  ⟨fun _ _ _ hab hbc =>
    candLE_iff_key.mpr (le_trans (candLE_iff_key.mp hab) (candLE_iff_key.mp hbc))⟩

theorem candKey_inj {a b : Candidate} (h : candKey a = candKey b) : a = b := by
  have h1 : -a.similarity = -b.similarity := congrArg (fun p => (ofLex p).1) h
  have h2 : a.image_id = b.image_id := congrArg (fun p => (ofLex (ofLex p).2).1) h
  have h3 : a.vector_id = b.vector_id :=
    congrArg (fun p => (ofLex (ofLex (ofLex p).2).2).1) h
  have h4 : a.owner_user_id = b.owner_user_id :=
    congrArg (fun p => (ofLex (ofLex (ofLex p).2).2).2) h
  have h1' : a.similarity = b.similarity := neg_inj.mp h1
  cases a
  cases b
  simp only [Candidate.mk.injEq]
  exact ⟨h3, h4, h2, h1'⟩

instance : IsAntisymm Candidate candLE :=
  ⟨fun _ _ hab hba =>
    candKey_inj (le_antisymm (candLE_iff_key.mp hab) (candLE_iff_key.mp hba))⟩

theorem candLE_sim_le {a b : Candidate} (h : candLE a b) :
    b.similarity ≤ a.similarity := by
  rcases h with h | ⟨he, _⟩
  · exact le_of_lt h
  · exact le_of_eq he.symm

theorem assignRanksFrom_length (l : List Candidate) :
    ∀ i, (assignRanksFrom i l).length = l.length := by
  induction l with
  | nil => intro i; rfl
  | cons c rest ih =>
    intro i
    simp [assignRanksFrom, ih (i + 1)]

theorem assignRanksFrom_append (l₁ l₂ : List Candidate) :
    ∀ i, assignRanksFrom i (l₁ ++ l₂) =
      assignRanksFrom i l₁ ++ assignRanksFrom (i + l₁.length) l₂ := by
  induction l₁ with
  | nil => intro i; simp [assignRanksFrom]
  | cons c rest ih =>
    intro i
    have hidx : i + (rest.length + 1) = i + 1 + rest.length := by omega
    show _ :: assignRanksFrom (i + 1) (rest ++ l₂) =
      _ :: (assignRanksFrom (i + 1) rest ++
        assignRanksFrom (i + (rest.length + 1)) l₂)
    rw [ih (i + 1), hidx]

theorem assignRanksFrom_map_rank (l : List Candidate) :
    ∀ i, (assignRanksFrom i l).map MatchResult.rank = List.range' i l.length := by
  induction l with
  | nil => intro i; rfl
  | cons c rest ih =>
    intro i
    simp [assignRanksFrom, ih (i + 1), List.range']

theorem mem_assignRanksFrom {m : MatchResult} {l : List Candidate} :
    ∀ {i}, m ∈ assignRanksFrom i l →
      ∃ c ∈ l, m.image_id = c.image_id ∧ m.owner_user_id = c.owner_user_id ∧
        m.similarity = c.similarity := by
  induction l with
  | nil => intro i h; simp [assignRanksFrom] at h
  | cons c rest ih =>
    intro i h
    simp only [assignRanksFrom, List.mem_cons] at h
    rcases h with h | h
    · exact ⟨c, List.mem_cons_self _ _, by simp [h]⟩
    · obtain ⟨c', hc', h'⟩ := ih h
      exact ⟨c', List.mem_cons_of_mem _ hc', h'⟩

theorem mrLE_of_candLE {c d : Candidate} {m m' : MatchResult} (h : candLE c d)
    (e1 : m.similarity = c.similarity) (e2 : m.image_id = c.image_id)
    (e3 : m'.similarity = d.similarity) (e4 : m'.image_id = d.image_id) :
    mrLE m m' := by
  unfold mrLE
  rw [e1, e2, e3, e4]
  rcases h with h | ⟨he, h⟩
  · exact Or.inl h
  · refine Or.inr ⟨he, ?_⟩
    rcases h with h | ⟨he2, _⟩
    · exact le_of_lt h
    · exact le_of_eq he2

theorem assignRanksFrom_pairwise {l : List Candidate} (h : l.Pairwise candLE) :
    ∀ i, (assignRanksFrom i l).Pairwise mrLE := by
  induction l with
  | nil => intro i; exact List.Pairwise.nil
  | cons c rest ih =>
    intro i
    rw [List.pairwise_cons] at h
    obtain ⟨hc, hrest⟩ := h
    refine List.Pairwise.cons ?_ (ih hrest (i + 1))
    intro m hm
    obtain ⟨c', hc', e2, _, e1⟩ := mem_assignRanksFrom hm
    exact mrLE_of_candLE (hc c' hc') rfl rfl e1 e2

theorem rank_sorted (cands : List Candidate) (t : ℚ) :
    (rank cands t).Pairwise mrLE :=
  assignRanksFrom_pairwise (List.sorted_insertionSort candLE _) 1

theorem rank_ranks (cands : List Candidate) (t : ℚ) :
    (rank cands t).map MatchResult.rank = List.range' 1 (rank cands t).length := by
  unfold rank
  rw [assignRanksFrom_map_rank, assignRanksFrom_length]

theorem mem_rank {r : MatchResult} {cands : List Candidate} {t : ℚ}
    (h : r ∈ rank cands t) :
    ∃ c ∈ cands, t ≤ c.similarity ∧ r.image_id = c.image_id ∧
      r.owner_user_id = c.owner_user_id ∧ r.similarity = c.similarity := by
  unfold rank at h
  obtain ⟨c, hc, h1, h2, h3⟩ := mem_assignRanksFrom h
  rw [List.mem_insertionSort, List.mem_filter] at hc
  exact ⟨c, hc.1, by simpa using hc.2, h1, h2, h3⟩

theorem rank_perm_eq {l₁ l₂ : List Candidate} (t : ℚ) (hp : l₁.Perm l₂) :
    rank l₁ t = rank l₂ t := by
  unfold rank
  refine congrArg (assignRanksFrom 1) (List.eq_of_perm_of_sorted ?_
    (List.sorted_insertionSort candLE _) (List.sorted_insertionSort candLE _))
  exact (List.perm_insertionSort _ _).trans
    ((hp.filter _).trans (List.perm_insertionSort _ _).symm)

theorem sorted_filter_eq_takeWhile {p : Candidate → Bool}
    (hmono : ∀ a b, candLE a b → p b = true → p a = true) :
    ∀ l : List Candidate, l.Pairwise candLE → l.filter p = l.takeWhile p := by
  intro l
  induction l with
  | nil => intro _; rfl
  | cons c rest ih =>
    intro h
    rw [List.pairwise_cons] at h
    obtain ⟨hc, hrest⟩ := h
    by_cases hpc : p c = true
    · simp [List.filter_cons, List.takeWhile_cons, hpc, ih hrest]
    · have hnil : rest.filter p = [] := by
        rw [List.filter_eq_nil_iff]
        intro b hb hpb
        exact hpc (hmono c b (hc b hb) hpb)
      simp [List.filter_cons, List.takeWhile_cons, hpc, hnil]

theorem rank_mono_append {cands : List Candidate} {t t' : ℚ} (h : t' ≤ t) :
    ∃ rest, rank cands t' = rank cands t ++ rest := by
  have himp : ∀ c : Candidate,
      (decide (t ≤ c.similarity) && decide (t' ≤ c.similarity))
        = decide (t ≤ c.similarity) := by
    intro c
    by_cases hc : t ≤ c.similarity
    · have hc' : t' ≤ c.similarity := le_trans h hc
      simp [hc, hc']
    · simp [hc]
  have hmono : ∀ a b : Candidate, candLE a b →
      decide (t ≤ b.similarity) = true → decide (t ≤ a.similarity) = true := by
    intro a b hab hb
    rw [decide_eq_true_iff] at hb ⊢
    exact le_trans hb (candLE_sim_le hab)
  set A := List.insertionSort candLE (cands.filter fun c => t ≤ c.similarity)
    with hA
  set B := List.insertionSort candLE (cands.filter fun c => t' ≤ c.similarity)
    with hB
  have hBsorted : B.Pairwise candLE := List.sorted_insertionSort candLE _
  have hfilterB : B.filter (fun c => t ≤ c.similarity) = A := by
    refine List.eq_of_perm_of_sorted ?_
      (List.Pairwise.sublist (List.filter_sublist _) hBsorted)
      (List.sorted_insertionSort candLE _)
    have h1 := (List.perm_insertionSort candLE
        (cands.filter fun c => t' ≤ c.similarity)).filter
      (fun c => decide (t ≤ c.similarity))
    rw [List.filter_filter, List.filter_congr fun c _ => himp c] at h1
    exact h1.trans (List.perm_insertionSort _ _).symm
  have htw : B.filter (fun c => t ≤ c.similarity)
      = B.takeWhile (fun c => t ≤ c.similarity) :=
    sorted_filter_eq_takeWhile hmono B hBsorted
  have hsplit : B = A ++ B.dropWhile (fun c => t ≤ c.similarity) := by
    conv_lhs => rw [← @List.takeWhile_append_dropWhile Candidate
      (fun c => decide (t ≤ c.similarity)) B]
    rw [← htw, hfilterB]
  refine ⟨assignRanksFrom (1 + A.length)
    (B.dropWhile fun c => t ≤ c.similarity), ?_⟩
  show assignRanksFrom 1 B = assignRanksFrom 1 A ++ _
  conv_lhs => rw [hsplit]
  rw [assignRanksFrom_append]

theorem mem_searchAll {s : Store} {q : Embedding} {sc : Scope} {c : Candidate}
    (h : c ∈ s.searchAll q sc) :
    ∃ r ∈ s.records, r.tombstoned = false ∧ inScope sc r = true ∧
      c = ⟨r.vector_id, r.owner_user_id, r.image_id, dot q r.vector⟩ := by
  unfold Store.searchAll at h
  rw [List.mem_insertionSort, List.mem_map] at h
  obtain ⟨r, hr, rfl⟩ := h
  rw [List.mem_filter] at hr
  obtain ⟨hmem, hcond⟩ := hr
  rw [Bool.and_eq_true] at hcond
  refine ⟨r, hmem, ?_, hcond.2, rfl⟩
  simpa using hcond.1

theorem mem_search {s : Store} {q : Embedding} {k : Nat} {sc : Scope}
    {c : Candidate} (h : c ∈ s.search q k sc) : c ∈ s.searchAll q sc :=
  List.mem_of_mem_take h

theorem scopedOutcome_matched {l results : List MatchResult}
    (h : scopedOutcome l = .matched results) : results = l := by
  cases l with
  | nil => simp [scopedOutcome] at h
  | cons r rs =>
    simp only [scopedOutcome, QueryOutcome.matched.injEq] at h
    exact h.symm

theorem globalOutcome_matched {cfg : Config} {l results : List MatchResult}
    (h : globalOutcome cfg l = .matched results) : results = l := by
  cases l with
  | nil => simp [globalOutcome] at h
  | cons top rest =>
    simp only [globalOutcome] at h
    split at h
    · simp at h
    · simp only [QueryOutcome.matched.injEq] at h
      exact h.symm

theorem queryPipeline_matched {s : Store} {embs : List Embedding} {sc : Scope}
    {cfg : Config} {results : List MatchResult}
    (h : queryPipeline s embs sc cfg = .matched results) :
    ∃ q tl, embs = q :: tl ∧
      results = rank (s.search q cfg.top_k sc) cfg.similarity_threshold := by
  cases embs with
  | nil => simp [queryPipeline] at h
  | cons q tl =>
    refine ⟨q, tl, rfl, ?_⟩
    unfold queryPipeline at h
    cases sc with
    | user uid => exact scopedOutcome_matched h
    | global => exact globalOutcome_matched h

theorem two_le_length_of_mem_ne {α : Type _} {a b : α} {l : List α}
    (ha : a ∈ l) (hb : b ∈ l) (hab : a ≠ b) : 2 ≤ l.length := by
  cases l with
  | nil => simp at ha
  | cons x xs =>
    cases xs with
    | nil =>
      simp only [List.mem_singleton] at ha hb
      exact absurd (ha.trans hb.symm) hab
    | cons y ys => simp [List.length_cons]

/-- C1: for distinct users `A ≠ B`, a query scoped to `A` never returns a
`MatchResult` whose `owner_user_id` is `B` — the store is arbitrary, so this
holds even when `B`'s vectors have strictly higher raw similarity to the
query; moreover every candidate of a user-scoped search, before truncation
to `k` (`Store.searchAll`), is a live vector owned by that user. -/
theorem user_scope_isolation (s : Store) (A B : String) (hAB : A ≠ B) :
    (∀ (q : Embedding) (c : Candidate), c ∈ s.searchAll q (.user A) →
      c.owner_user_id = A ∧ ∃ r ∈ s.records, r.tombstoned = false ∧
        r.owner_user_id = A ∧ c.vector_id = r.vector_id) ∧
    (∀ (embs : List Embedding) (cfg : Config) (results : List MatchResult),
      queryPipeline s embs (.user A) cfg = .matched results →
      ∀ mr ∈ results, mr.owner_user_id = A ∧ mr.owner_user_id ≠ B) := by
  have hall : ∀ (q : Embedding) (c : Candidate), c ∈ s.searchAll q (.user A) →
      c.owner_user_id = A ∧ ∃ r ∈ s.records, r.tombstoned = false ∧
        r.owner_user_id = A ∧ c.vector_id = r.vector_id := by
    intro q c hc
    obtain ⟨r, hr, htomb, hscope, rfl⟩ := mem_searchAll hc
    have howner : r.owner_user_id = A := by simpa [inScope] using hscope
    exact ⟨howner, r, hr, htomb, howner, rfl⟩
  refine ⟨hall, ?_⟩
  intro embs cfg results h mr hmr
  obtain ⟨q, tl, rfl, hres⟩ := queryPipeline_matched h
  rw [hres] at hmr
  obtain ⟨c, hc, _, _, howner, _⟩ := mem_rank hmr
  have hA := (hall q c (mem_search hc)).1
  refine ⟨howner.trans hA, ?_⟩
  rw [howner, hA]
  exact hAB

unseal Rat.add Rat.mul Rat.inv Rat.sub in
/-- Witness for C1: a store where user `B`'s vector has strictly higher
similarity (`1`) to the query than user `A`'s (`4/5`); the query scoped to
`A` still returns only `A`'s result. -/
theorem user_scope_isolation_witness :
    (⟨"imgA", "A", 4/5, 1⟩ : MatchResult).owner_user_id = "A" ∧
    (⟨"imgA", "A", 4/5, 1⟩ : MatchResult).owner_user_id ≠ "B" :=
  (user_scope_isolation
      ⟨[⟨0, "A", "imgA", [4/5, 3/5], false, 0⟩,
        ⟨1, "B", "imgB", [1, 0], false, 0⟩], 2⟩ "A" "B" (by decide)).2
    [[1, 0]] ⟨3/4, 10, 1/50⟩ [⟨"imgA", "A", 4/5, 1⟩] (by decide)
    ⟨"imgA", "A", 4/5, 1⟩ (by decide)

/-- C2: `Delete` is modelled by `Store.tombstone`.  After tombstoning an
image, the records still exist physically (the record count is unchanged),
search never emits a candidate belonging to a tombstoned record, no
candidate of any subsequent search carries the deleted `image_id`, and no
subsequent query of any scope returns a `MatchResult` for it. -/
theorem tombstone_excludes_image (s : Store) (img : String) :
    ((s.tombstone img).1.records.length = s.records.length) ∧
    (∀ (s₀ : Store) (q : Embedding) (sc : Scope) (c : Candidate),
      c ∈ s₀.searchAll q sc →
      ∃ r ∈ s₀.records, r.tombstoned = false ∧ c.vector_id = r.vector_id ∧
        c.image_id = r.image_id) ∧
    (∀ (q : Embedding) (sc : Scope) (c : Candidate),
      c ∈ (s.tombstone img).1.searchAll q sc → c.image_id ≠ img) ∧
    (∀ (embs : List Embedding) (sc : Scope) (cfg : Config)
        (results : List MatchResult),
      queryPipeline (s.tombstone img).1 embs sc cfg = .matched results →
      ∀ mr ∈ results, mr.image_id ≠ img) := by
  have hnotomb : ∀ (q : Embedding) (sc : Scope) (c : Candidate),
      c ∈ (s.tombstone img).1.searchAll q sc → c.image_id ≠ img := by
    intro q sc c hc
    obtain ⟨r', hr', htomb, _, rfl⟩ := mem_searchAll hc
    unfold Store.tombstone at hr'
    rw [List.mem_map] at hr'
    obtain ⟨r, hr, hfr⟩ := hr'
    by_cases him : r.image_id = img
    · rw [if_pos him] at hfr
      rw [← hfr] at htomb
      simp at htomb
    · rw [if_neg him] at hfr
      subst hfr
      exact him
  refine ⟨?_, ?_, hnotomb, ?_⟩
  · unfold Store.tombstone
    simp
  · intro s₀ q sc c hc
    obtain ⟨r, hr, htomb, _, rfl⟩ := mem_searchAll hc
    exact ⟨r, hr, htomb, rfl, rfl⟩
  · intro embs sc cfg results h mr hmr
    obtain ⟨q, tl, rfl, hres⟩ := queryPipeline_matched h
    rw [hres] at hmr
    obtain ⟨c, hc, _, himg, _, _⟩ := mem_rank hmr
    rw [himg]
    exact hnotomb q sc c (mem_search hc)

unseal Rat.add Rat.mul Rat.inv Rat.sub in
/-- Witness for C2: after tombstoning `img1` in a store holding `img1` and
`img2`, a global query still matches `img2`, whose id differs from the
deleted image's. -/
theorem tombstone_excludes_image_witness :
    (⟨"img2", "u2", 1, 1⟩ : MatchResult).image_id ≠ "img1" :=
  (tombstone_excludes_image
      ⟨[⟨0, "u1", "img1", [1, 0], false, 0⟩,
        ⟨1, "u2", "img2", [1, 0], false, 0⟩], 2⟩ "img1").2.2.2
    [[1, 0]] .global ⟨3/4, 10, 1/50⟩ [⟨"img2", "u2", 1, 1⟩] (by decide)
    ⟨"img2", "u2", 1, 1⟩ (by decide)

/-- C3: supplying zero embeddings (no detected face) makes both the
Ingestion and the Query pipeline return the distinct normal outcome
`noFace` — a constructor of the result type separate from the `failed`
fault outcomes, so no application-level fault reaches the caller. -/
theorem zero_embeddings_no_face (s : Store) (owner image : String) (now : Nat)
    (sc : Scope) (cfg : Config) :
    ingestPipeline s owner image [] now = .noFace ∧
    queryPipeline s [] sc cfg = .noFace :=
  ⟨rfl, rfl⟩

/-- C8: `Restore (Persist s)` succeeds, rebuilds the store with the
identical record log, and answers every query with the identical result as
the store before persistence. -/
theorem persist_restore_round_trip (s : Store) :
    ∃ s', Store.restore (Store.persist s) = some s' ∧
      s'.records = s.records ∧
      ∀ (embs : List Embedding) (sc : Scope) (cfg : Config),
        queryPipeline s' embs sc cfg = queryPipeline s embs sc cfg := by
  refine ⟨⟨s.records, (s.records.map VectorRecord.vector_id).foldr max 0 + 1⟩,
    ?_, rfl, ?_⟩
  · simp [Store.restore, Store.persist, snapshotVersion]
  · intro embs sc cfg
    cases s
    rfl

/-- C4: the ranker never returns a result with similarity strictly below
the threshold, and lowering the threshold is monotone — every result
returned at the higher threshold `t` is still returned at the lower
threshold `t'`. -/
theorem threshold_filter_and_monotone (cands : List Candidate) (t t' : ℚ)
    (h : t' ≤ t) :
    (∀ mr ∈ rank cands t, t ≤ mr.similarity) ∧
    (∀ mr ∈ rank cands t, mr ∈ rank cands t') := by
  constructor
  · intro mr hmr
    obtain ⟨c, _, hts, _, _, hsim⟩ := mem_rank hmr
    rw [hsim]
    exact hts
  · obtain ⟨rest, hres⟩ := @rank_mono_append cands t t' h
    intro mr hmr
    rw [hres]
    exact List.mem_append_left _ hmr

/-- Witness for C4: with candidates at similarities `2` and `1`, the result
ranked at threshold `2` has similarity at least `2` and is still returned
at the lower threshold `1`. -/
theorem threshold_filter_and_monotone_witness :
    (2 : ℚ) ≤ (⟨"a", "u", 2, 1⟩ : MatchResult).similarity ∧
    (⟨"a", "u", 2, 1⟩ : MatchResult)
      ∈ rank [⟨0, "u", "a", 2⟩, ⟨1, "u", "b", 1⟩] 1 :=
  ⟨(threshold_filter_and_monotone [⟨0, "u", "a", 2⟩, ⟨1, "u", "b", 1⟩] 2 1
      (by decide)).1 ⟨"a", "u", 2, 1⟩ (by decide),
   (threshold_filter_and_monotone [⟨0, "u", "a", 2⟩, ⟨1, "u", "b", 1⟩] 2 1
      (by decide)).2 ⟨"a", "u", 2, 1⟩ (by decide)⟩

/-- C5: the ranker's output is sorted descending by similarity with
equal-similarity ties in ascending `image_id` order, carries ranks `1..N`,
and is a deterministic function of the candidate set — any permutation of
the input (any insertion or iteration order) yields the identical output. -/
theorem ranker_deterministic (l₁ l₂ : List Candidate) (t : ℚ)
    (hp : l₁.Perm l₂) :
    (rank l₁ t).Pairwise mrLE ∧
    (rank l₁ t).map MatchResult.rank = List.range' 1 (rank l₁ t).length ∧
    rank l₁ t = rank l₂ t :=
  ⟨rank_sorted l₁ t, rank_ranks l₁ t, rank_perm_eq t hp⟩

/-- Witness for C5: swapping the insertion order of two candidates leaves
the ranked output identical. -/
theorem ranker_deterministic_witness :
    rank [⟨0, "u", "a", 2⟩, ⟨1, "v", "b", 3⟩] 1
      = rank [⟨1, "v", "b", 3⟩, ⟨0, "u", "a", 2⟩] 1 :=
  (ranker_deterministic [⟨0, "u", "a", 2⟩, ⟨1, "v", "b", 3⟩]
    [⟨1, "v", "b", 3⟩, ⟨0, "u", "a", 2⟩] 1 (List.Perm.swap _ _ _)).2.2

theorem l2normSq_cons (x : ℚ) (xs : List ℚ) :
    l2normSq (x :: xs) = x * x + l2normSq xs := rfl

theorem l2normSq_div (v : Embedding) (n : ℚ) :
    l2normSq (v.map fun x => x / n) = l2normSq v / n ^ 2 := by
  induction v with
  | nil => simp [l2normSq]
  | cons x xs ih =>
    rw [List.map_cons, l2normSq_cons, l2normSq_cons, ih]
    ring

/-- C6: the Normalizer fails with `DegenerateVector` exactly when the L2
norm is below `epsNorm`; otherwise it returns the componentwise division by
the norm, whose squared L2 norm is exactly `1` — so any value `m` that is
its L2 norm satisfies `|m - 1| < 1e-5`, the spec's floating tolerance. -/
theorem normalize_spec (v : Embedding) (n : ℚ) (hn : IsL2Norm n v) :
    (normalize n v = .degenerateVector ↔ n < epsNorm) ∧
    (epsNorm ≤ n →
      normalize n v = .ok (v.map fun x => x / n) ∧
      l2normSq (v.map fun x => x / n) = 1 ∧
      ∀ m, IsL2Norm m (v.map fun x => x / n) → |m - 1| < 1 / 100000) := by
  have heps : (0 : ℚ) < epsNorm := by norm_num [epsNorm]
  constructor
  · unfold normalize
    split
    next hlt => simp [hlt]
    next hlt => simp [hlt]
  · intro hge
    have hnpos : 0 < n := lt_of_lt_of_le heps hge
    have hne : n ≠ 0 := ne_of_gt hnpos
    have hok : normalize n v = .ok (v.map fun x => x / n) := by
      unfold normalize
      rw [if_neg (not_lt.mpr hge)]
    have hunit : l2normSq (v.map fun x => x / n) = 1 := by
      rw [l2normSq_div, ← hn.2]
      exact div_self (pow_ne_zero 2 hne)
    refine ⟨hok, hunit, ?_⟩
    intro m hm
    obtain ⟨hm0, hm2⟩ := hm
    rw [hunit] at hm2
    have hfactor : (m - 1) * (m + 1) = 0 := by linear_combination hm2
    rcases mul_eq_zero.mp hfactor with h1 | h1
    · have hm1 : m = 1 := by linarith [sub_eq_zero.mp h1]
      rw [hm1]
      norm_num
    · exfalso
      have hmneg : m = -1 := by linarith
      rw [hmneg] at hm0
      norm_num at hm0

unseal Rat.add Rat.mul Rat.inv Rat.sub in
/-- Witness for C6: the vector `[3, 4]` has L2 norm `5`; normalization
divides by it and the output has squared norm exactly `1`. -/
theorem normalize_spec_witness :
    IsL2Norm 5 [3, 4] ∧ normalize 5 [3, 4] = .ok [3/5, 4/5] ∧
      l2normSq [(3 : ℚ)/5, 4/5] = 1 :=
  have hn : IsL2Norm 5 [3, 4] :=
    show 0 ≤ (5 : ℚ) ∧ (5 : ℚ) ^ 2 = l2normSq [3, 4] from ⟨by decide, by decide⟩
  ⟨hn, ((normalize_spec [3, 4] 5 hn).2 (by decide)).1,
    ((normalize_spec [3, 4] 5 hn).2 (by decide)).2.1⟩

/-- C7: in identity-discovery mode (`Scope.global`), whenever two ranked
results with distinct owners both lie within `ambiguity_epsilon` of the top
similarity, the Query pipeline returns the `ambiguous` outcome listing the
candidate user ids (both owners included) instead of picking a winner. -/
theorem global_ambiguity_signalled (s : Store) (q : Embedding)
    (tl : List Embedding) (cfg : Config) (top : MatchResult)
    (rest : List MatchResult) (r1 r2 : MatchResult)
    (hres : rank (s.search q cfg.top_k .global) cfg.similarity_threshold
      = top :: rest)
    (h1 : r1 ∈ top :: rest) (h2 : r2 ∈ top :: rest)
    (hne : r1.owner_user_id ≠ r2.owner_user_id)
    (he1 : top.similarity - r1.similarity ≤ cfg.ambiguity_epsilon)
    (he2 : top.similarity - r2.similarity ≤ cfg.ambiguity_epsilon) :
    ∃ users, queryPipeline s (q :: tl) .global cfg = .ambiguous users ∧
      r1.owner_user_id ∈ users ∧ r2.owner_user_id ∈ users := by
  have hq0 : queryPipeline s (q :: tl) .global cfg
      = globalOutcome cfg (rank (s.search q cfg.top_k .global)
          cfg.similarity_threshold) := rfl
  rw [hres] at hq0
  have hm1 : r1.owner_user_id ∈ nearTopOwners cfg top (top :: rest) := by
    unfold nearTopOwners
    rw [List.mem_dedup]
    exact List.mem_map_of_mem _ (List.mem_filter.mpr ⟨h1, by simpa using he1⟩)
  have hm2 : r2.owner_user_id ∈ nearTopOwners cfg top (top :: rest) := by
    unfold nearTopOwners
    rw [List.mem_dedup]
    exact List.mem_map_of_mem _ (List.mem_filter.mpr ⟨h2, by simpa using he2⟩)
  have hlen : 2 ≤ (nearTopOwners cfg top (top :: rest)).length :=
    two_le_length_of_mem_ne hm1 hm2 hne
  refine ⟨nearTopOwners cfg top (top :: rest), ?_, hm1, hm2⟩
  rw [hq0]
  simp only [globalOutcome]
  rw [if_pos hlen]

unseal Rat.add Rat.mul Rat.inv Rat.sub in
/-- Witness for C7: the spec's scenario — two users at similarities `0.751`
and `0.760` against a global query with `ambiguity_epsilon = 0.02`
(threshold `0.75`) produce the ambiguous outcome listing both users. -/
theorem global_ambiguity_signalled_witness :
    ∃ users,
      queryPipeline
          ⟨[⟨0, "u_a", "img_a", [751/1000], false, 0⟩,
            ⟨1, "u_b", "img_b", [760/1000], false, 0⟩], 2⟩
          [[1]] .global ⟨3/4, 10, 1/50⟩ = .ambiguous users ∧
        "u_b" ∈ users ∧ "u_a" ∈ users :=
  global_ambiguity_signalled
    ⟨[⟨0, "u_a", "img_a", [751/1000], false, 0⟩,
      ⟨1, "u_b", "img_b", [760/1000], false, 0⟩], 2⟩
    [1] [] ⟨3/4, 10, 1/50⟩
    ⟨"img_b", "u_b", 760/1000, 1⟩ [⟨"img_a", "u_a", 751/1000, 2⟩]
    ⟨"img_b", "u_b", 760/1000, 1⟩ ⟨"img_a", "u_a", 751/1000, 2⟩
    (by decide) (by decide) (by decide) (by decide) (by decide) (by decide)

end FaceEngine

namespace Frontend

theorem transformGalleryFrom_map_sim (imgs : List BackendImage) :
    ∀ i, (transformGalleryFrom i imgs).map ImageResult.similarity
      = List.replicate imgs.length 1 := by
  induction imgs with
  | nil => intro i; rfl
  | cons img rest ih =>
    intro i
    simp [transformGalleryFrom, ih (i + 1), List.replicate_succ]

theorem transformGalleryFrom_map_rank (imgs : List BackendImage) :
    ∀ i, (transformGalleryFrom i imgs).map ImageResult.rank
      = List.range' (i + 1) imgs.length := by
  induction imgs with
  | nil => intro i; rfl
  | cons img rest ih =>
    intro i
    show (i + 1) :: (transformGalleryFrom (i + 1) rest).map ImageResult.rank
      = (i + 1) :: List.range' (i + 1 + 1) rest.length
    rw [ih (i + 1)]

theorem transformGalleryFrom_ignores_similarity
    (f : BackendImage → Option ℚ) (imgs : List BackendImage) :
    ∀ i, transformGalleryFrom i
        (imgs.map fun im => { im with similarity := f im })
      = transformGalleryFrom i imgs := by
  induction imgs with
  | nil => intro i; rfl
  | cons img rest ih =>
    intro i
    simp [transformGalleryFrom, ih (i + 1)]

/-- C9: the gallery page's transformation gives every displayed image a
similarity of exactly `1`, a rank equal to its 1-based position in the
returned page array, and ignores whatever similarity the backend supplied —
gallery items never reflect real match similarity. -/
theorem gallery_constant_similarity (imgs : List BackendImage)
    (f : BackendImage → Option ℚ) :
    (transformGalleryImages imgs).map ImageResult.similarity
        = List.replicate imgs.length 1 ∧
    (transformGalleryImages imgs).map ImageResult.rank
        = List.range' 1 imgs.length ∧
    transformGalleryImages (imgs.map fun im => { im with similarity := f im })
        = transformGalleryImages imgs :=
  ⟨transformGalleryFrom_map_sim imgs 0, transformGalleryFrom_map_rank imgs 0,
    transformGalleryFrom_ignores_similarity f imgs 0⟩

/-- C10: the scan page writes `access_token` and `user_id` to
`localStorage` only when the response has `success`, `match_count > 0` and
a truthy (non-empty) `access_token`; in the error, zero-faces and no-match
outcomes the whole state except the page's `status` / `result` / `error`
fields — in particular the stored credentials and the route — is left
unchanged, as the stated equalities exhibit. -/
theorem scan_token_write_guard (st : ScanPageState) (data : ScanResult)
    (msg : String) :
    (handleCapture st (.error msg)
      = { st with status := ScanStatus.error, error := some msg }) ∧
    (data.success = true → 0 < data.match_count →
      strTruthy data.access_token = true →
      handleCapture st (.ok data)
        = { st with
            status := ScanStatus.scanning
            error := none
            result := some data
            storage := ⟨data.access_token, some (data.user_id.getD "")⟩
            route := "/gallery" }) ∧
    (data.success = true → 0 < data.match_count →
      strTruthy data.access_token = false →
      handleCapture st (.ok data)
        = { st with
            status := ScanStatus.scanning
            error := none
            result := some data
            route := "/gallery" }) ∧
    (¬(data.success = true ∧ 0 < data.match_count) →
      data.faces_detected = 0 →
      handleCapture st (.ok data)
        = { st with
            status := ScanStatus.error
            error := some "No face detected. Please try again."
            result := some data }) ∧
    (¬(data.success = true ∧ 0 < data.match_count) →
      data.faces_detected ≠ 0 →
      handleCapture st (.ok data)
        = { st with
            status := ScanStatus.noMatch
            error := none
            result := some data }) ∧
    ((handleCapture st (.ok data)).storage ≠ st.storage →
      data.success = true ∧ 0 < data.match_count ∧
        strTruthy data.access_token = true) := by
  have hcf : ¬(data.success = true ∧ 0 < data.match_count) →
      (data.success && decide (0 < data.match_count)) = false := by
    intro hn
    rcases not_and_or.mp hn with h | h
    · have hs : data.success = false := by
        cases hsv : data.success
        · rfl
        · exact absurd hsv h
      simp [hs]
    · simp [h]
  refine ⟨rfl, ?_, ?_, ?_, ?_, ?_⟩
  · intro hs hm htok
    simp [handleCapture, hs, hm, htok]
  · intro hs hm htok
    simp [handleCapture, hs, hm, htok]
  · intro hn hf
    simp [handleCapture, hcf hn, hf]
  · intro hn hf
    simp [handleCapture, hcf hn, hf]
  · intro hne
    by_cases hc : (data.success && decide (0 < data.match_count)) = true
    · rw [Bool.and_eq_true] at hc
      obtain ⟨hs, hm⟩ := hc
      have hm' : 0 < data.match_count := of_decide_eq_true hm
      by_cases htok : strTruthy data.access_token = true
      · exact ⟨hs, hm', htok⟩
      · exfalso
        apply hne
        have htok' : strTruthy data.access_token = false :=
          Bool.eq_false_iff.mpr htok
        show (handleCapture st (.ok data)).storage = st.storage
        simp [handleCapture, hs, hm', htok']
    · have hcfb : (data.success && decide (0 < data.match_count)) = false :=
        Bool.eq_false_iff.mpr hc
      exfalso
      apply hne
      show (handleCapture st (.ok data)).storage = st.storage
      by_cases hf : (data.faces_detected == 0) = true
      · simp [handleCapture, hcfb, hf]
      · have hff : (data.faces_detected == 0) = false :=
          Bool.eq_false_iff.mpr hf
        simp [handleCapture, hcfb, hff]

/-- Witness for C10: a successful scan response with one match and a
non-empty token stores the token and user id and navigates to the
gallery. -/
theorem scan_token_write_guard_witness :
    handleCapture ⟨⟨none, none⟩, .idle, none, none, "/scan"⟩
        (.ok ⟨true, "ok", 1, some "u1", some "tok", 2⟩)
      = ⟨⟨some "tok", some "u1"⟩, .scanning,
          some ⟨true, "ok", 1, some "u1", some "tok", 2⟩, none, "/gallery"⟩ :=
  (scan_token_write_guard ⟨⟨none, none⟩, .idle, none, none, "/scan"⟩
      ⟨true, "ok", 1, some "u1", some "tok", 2⟩ "m").2.1
    rfl (by decide) (by decide)

end Frontend
